import Mathlib

/-!
Verification of the snakes-n-ladders game engine (src/main.rs).

The embedding translates the core game logic:
* `Tile`, `Position`, `Player`, `Board`, `GamePage`, `Mode`, `Config` mirror
  the Rust data types (presentation-only fields such as `color` and `offset`
  are omitted; the spec explicitly excludes them from the core model).
* The 10x10 tile array `[[Tile; 10]; 10]` is modelled as `Grid := Nat → Tile`
  where linear cell index `i` stands for `tile[i / 10][i % 10]`.
* `rand::thread_rng().gen_range(lo..hi)` is modelled by consuming one value
  `v` from an explicit stream (`List Nat`) and mapping it into the range as
  `lo + v % (hi - lo)`; a call is deterministic given the stream.  `add_snl`
  returns `none` when the stream runs out, so a run of the Rust loop that
  never terminates corresponds to `none` on every finite prefix of the
  adversarial stream.
* `game_logic` takes the drawn dice value as a parameter and returns
  `Option GamePage`; `none` models a Rust panic (out-of-bounds indexing).
-/

/-- Mirrors `struct Position { x: i32, y: i32 }`. -/
structure Position where
  x : Int
  y : Int
deriving DecidableEq

/-- Mirrors `enum Tile { Snake(Position), Ladder(Position), Target, None }`. -/
inductive Tile where
  | Snake : Position → Tile
  | Ladder : Position → Tile
  | Target : Tile
  | none : Tile
deriving DecidableEq

/-- Linear-index view of the Rust `[[Tile; 10]; 10]` array:
`g i` stands for `tile[i / 10][i % 10]`. -/
abbrev Grid := Nat → Tile

/-- Mirrors `struct Player` (core fields only: `name`, `position`;
`color` and `offset` are presentation-only and excluded per the spec). -/
structure Player where
  name : String
  position : Position
deriving DecidableEq

/-- Mirrors `struct Board { tile, players }`. -/
structure Board where
  tile : Grid
  players : List Player

/-- Mirrors `enum Mode { Friendly, Bump, Swap }`. -/
inductive Mode where
  | Friendly : Mode
  | Bump : Mode
  | Swap : Mode
deriving DecidableEq

/-- Mirrors `struct Config { players, possible_players, game_type }`. -/
structure Config where
  players : List Player
  possible_players : List Player
  game_type : Mode

/-- Mirrors `struct GamePage { game_type, dice_value, board, player_turn, ended }`. -/
structure GamePage where
  game_type : Mode
  dice_value : Nat
  board : Board
  player_turn : Nat
  ended : Bool

/-- Models `rng.gen_range(lo..hi)` applied to stream value `v`:
the draw is mapped into `[lo, hi)` as `lo + v % (hi - lo)`. -/
def genRange (lo hi v : Nat) : Nat := lo + v % (hi - lo)

/-- Writing one cell of the grid: `tile[j / 10][j % 10] = t`. -/
def setCell (g : Grid) (j : Nat) (t : Tile) : Grid :=
  fun i => if i = j then t else g i

/-- The `Position { x: (pos_end % 10) as i32, y: (pos_end / 10) as i32 }`
packing used when `Board::add_snl` stores an exit cell. -/
def posOfCell (e : Nat) : Position := ⟨Int.ofNat (e % 10), Int.ofNat (e / 10)⟩

/-- Mirrors `Board::add_snl` (src/main.rs:313-349) as a function of an explicit
random stream.  Arguments `rsLo`/`rsHi` model the `r_start` range, `reLo`/`reHi`
the `r_end` closure, `mk` the `make_tile` closure, `maxA` the `max_attempts`
constant.  State: `k` items left to place, current `tile` grid, the shared
`attempts` counter, and `phase` (`Option.none` = about to draw a start cell,
`some s` = start cell `s` chosen, searching an exit).  Each loop iteration of the
Rust code consumes exactly one `gen_range` draw, so the recursion is structural
on the stream; `none` means the stream was exhausted before all `k` items were
placed (an infinite run of the Rust loops yields `none` on every finite prefix). -/
def addSnl (rsLo rsHi : Nat) (reLo reHi : Nat → Nat) (mk : Nat → Tile) (maxA : Nat) :
    List Nat → Nat → Grid → Nat → Option Nat → Option (Grid × List Nat)
  | rng, 0, tile, _, _ => some (tile, rng)
  | [], _ + 1, _, _, _ => Option.none
  | v :: rng, k + 1, tile, attempts, Option.none =>
      let s := genRange rsLo rsHi v
      if tile s ≠ Tile.none then
        addSnl rsLo rsHi reLo reHi mk maxA rng (k + 1) tile attempts Option.none
      else
        addSnl rsLo rsHi reLo reHi mk maxA rng (k + 1) tile attempts (some s)
  | v :: rng, k + 1, tile, attempts, some s =>
      let e := genRange (reLo s) (reHi s) v
      if tile e ≠ Tile.none then
        if attempts + 1 > maxA then
          addSnl rsLo rsHi reLo reHi mk maxA rng (k + 1) tile (attempts + 1) Option.none
        else
          addSnl rsLo rsHi reLo reHi mk maxA rng (k + 1) tile (attempts + 1) (some s)
      else
        addSnl rsLo rsHi reLo reHi mk maxA rng k
          (setCell (setCell tile s (mk e)) e Tile.Target) 0 Option.none

/-- Mirrors `Board::new` (src/main.rs:351-371): 8 snakes with start range `10..99`
and exit range `1..(pos/10)*10`, then 8 ladders with start range `1..90` and exit
range `(pos/10+1)*10..99`, threading the random stream through both passes. -/
def boardNew (rng : List Nat) : Option (Grid × List Nat) :=
  match addSnl 10 99 (fun _ => 1) (fun s => (s / 10) * 10)
      (fun e => Tile.Snake (posOfCell e)) 50 rng 8 (fun _ => Tile.none) 0 Option.none with
  | Option.none => Option.none
  | some (t1, rng1) =>
      addSnl 1 90 (fun s => (s / 10 + 1) * 10) (fun _ => 99)
        (fun e => Tile.Ladder (posOfCell e)) 50 rng1 8 t1 0 Option.none

/-- Mirrors `GamePage::new` (src/main.rs:540-548): no validation of any kind,
every field is filled in directly; the only way not to obtain a `GamePage` is
`Board::new` failing to finish on the given stream. -/
def gamePageNew (cfg : Config) (rng : List Nat) : Option GamePage :=
  match boardNew rng with
  | some (g, _) =>
      some { game_type := cfg.game_type
             dice_value := 0
             board := { tile := g, players := cfg.players }
             player_turn := 0
             ended := false }
  | Option.none => Option.none

/-- The linear cell index of a player position: `position.y * 10 + position.x`. -/
def cellIndex (p : Position) : Int := p.y * 10 + p.x

/-- The turn advance of `game_logic` (src/main.rs:788-793):
`player_turn += 1; if player_turn == total_players { player_turn = 0 }`,
executed only when the dice is not 6. -/
def nextTurn (turn total d : Nat) : Nat :=
  if d ≠ 6 then (if turn + 1 = total then 0 else turn + 1) else turn

/-- Movement resolution (src/main.rs:800-808): a `Snake` or `Ladder` tile sends
the mover to the stored exit position, any other tile leaves it at the target
cell `Position { x: new_pos % 10, y: new_pos / 10 }`. -/
def resolveTile (t : Tile) (new_pos : Int) : Position :=
  match t with
  | Tile.Snake p => p
  | Tile.Ladder p => p
  | _ => ⟨new_pos % 10, new_pos / 10⟩

/-- In-place update of the player at index `n` to position `q`. -/
def setPos : List Player → Nat → Position → List Player
  | [], _, _ => []
  | p :: ps, 0, q => { p with position := q } :: ps
  | p :: ps, n + 1, q => p :: setPos ps n q

/-- The `Mode::Bump` arm (src/main.rs:811-817): every player other than the
mover (index `turn`) whose position equals the mover's new position `target`
is sent to `Position { x: 0, y: 0 }`.  `i` is the index of the list head. -/
def bumpOthersAux (turn : Nat) (target : Position) : Nat → List Player → List Player
  | _, [] => []
  | i, p :: ps =>
      (if i ≠ turn ∧ p.position = target then { p with position := ⟨0, 0⟩ } else p)
        :: bumpOthersAux turn target (i + 1) ps

/-- The `find` of the `Mode::Swap` arm (src/main.rs:819-823): the first index
(in ascending order, skipping the mover index `turn` — the order of
`left.iter_mut().chain(right.iter_mut())`) whose player occupies `target`. -/
def firstOtherAux (turn : Nat) (target : Position) : Nat → List Player → Option Nat
  | _, [] => Option.none
  | i, p :: ps =>
      if i ≠ turn ∧ p.position = target then some i
      else firstOtherAux turn target (i + 1) ps

/-- The mode interaction of `game_logic` (src/main.rs:810-828), applied to the
player list after the mover was moved to `newP`; `oldP` is the mover's pre-move
position (`old_position` in the source). -/
def applyMode (mode : Mode) (turn : Nat) (newP oldP : Position) (ps : List Player) :
    List Player :=
  match mode with
  | Mode.Bump => bumpOthersAux turn newP 0 ps
  | Mode.Swap =>
      match firstOtherAux turn newP 0 ps with
      | some i => setPos ps i oldP
      | Option.none => ps
  | Mode.Friendly => ps

/-- Mirrors `GamePage::game_logic` (src/main.rs:777-829) with the drawn dice
value `d` passed explicitly.  `none` models the Rust panics: indexing the player
slice when `player_turn ≥ players.len()`, and indexing the tile array with a
negative `new_pos` (the `as usize` casts).  Note that the source does not
return after setting `ended` on `new_pos == 99`: movement resolution and the
mode interaction still run in that case, exactly as modelled here. -/
def game_logic (g : GamePage) (d : Nat) : Option GamePage :=
  if g.ended then some g
  else
    match g.board.players[g.player_turn]? with
    | Option.none => Option.none
    | some current =>
        let new_pos : Int := cellIndex current.position + (d : Int)
        let turn' := nextTurn g.player_turn g.board.players.length d
        if 99 < new_pos then
          some { g with dice_value := d, player_turn := turn' }
        else if new_pos < 0 then Option.none
        else
          let newP := resolveTile (g.board.tile new_pos.toNat) new_pos
          let ps1 := setPos g.board.players g.player_turn newP
          let ps2 := applyMode g.game_type g.player_turn newP current.position ps1
          some { g with
                 dice_value := d
                 player_turn := turn'
                 ended := decide (new_pos = 99)
                 board := { g.board with players := ps2 } }

/-- Snake-start recognizer, for counting cells of the generated grid. -/
def isSnakeB : Tile → Bool
  | Tile.Snake _ => true
  | _ => false

/-- Ladder-start recognizer. -/
def isLadderB : Tile → Bool
  | Tile.Ladder _ => true
  | _ => false

/-- Exit-marker recognizer. -/
def isTargetB : Tile → Bool
  | Tile.Target => true
  | _ => false

/-- Number of cells of the 100-cell grid whose tile satisfies `p`. -/
def countCells (g : Grid) (p : Tile → Bool) : Nat :=
  (List.range 100).countP (fun i => p (g i))

/-- A deterministic stream on which `Board::new` completes: the 8 snakes get
starts 10..17 with exits 1..8, the 8 ladders get starts 20..27 with exits
30..37; every draw succeeds at the first attempt, consuming exactly 32 values. -/
def wStream : List Nat :=
  [0, 0, 1, 1, 2, 2, 3, 3, 4, 4, 5, 5, 6, 6, 7, 7,
   19, 0, 20, 1, 21, 2, 22, 3, 23, 4, 24, 5, 25, 6, 26, 7]

/-- The grid generated from `wStream` (fallback value unreachable). -/
def wGrid : Grid :=
  match boardNew wStream with
  | some (g, _) => g
  | Option.none => fun _ => Tile.none

/-- A single-player configuration (player count outside the supported [2,4]). -/
def cfgSolo : Config :=
  { players := [{ name := "solo", position := ⟨0, 0⟩ }]
    possible_players := []
    game_type := Mode.Friendly }

/-- The game state `GamePage::new` happily constructs for the one-player
configuration (fallback value unreachable). -/
def wGame : GamePage :=
  match gamePageNew cfgSolo wStream with
  | some g => g
  | Option.none =>
      { game_type := Mode.Friendly
        dice_value := 0
        board := { tile := fun _ => Tile.none, players := [] }
        player_turn := 0
        ended := true }

/-- An ended state, for the no-op witnesses. -/
def gEnded : GamePage :=
  { game_type := Mode.Friendly
    dice_value := 4
    board := { tile := fun _ => Tile.none
               players := [{ name := "A", position := ⟨9, 9⟩ },
                           { name := "B", position := ⟨3, 2⟩ }] }
    player_turn := 1
    ended := true }

/-- Bump-mode state in which the mover's target index is exactly 99 while
another player already sits on cell 99: player A at cell 97, player B at
cell 99. -/
def c1Ex : GamePage :=
  { game_type := Mode.Bump
    dice_value := 0
    board := { tile := fun _ => Tile.none
               players := [{ name := "A", position := ⟨7, 9⟩ },
                           { name := "B", position := ⟨9, 9⟩ }] }
    player_turn := 0
    ended := false }

/-- A two-player Friendly state on an empty board, for witnesses. -/
def gTwo : GamePage :=
  { game_type := Mode.Friendly
    dice_value := 0
    board := { tile := fun _ => Tile.none
               players := [{ name := "A", position := ⟨0, 0⟩ },
                           { name := "B", position := ⟨5, 0⟩ }] }
    player_turn := 0
    ended := false }

/-- The state after rolling 3 from `gTwo` (fallback unreachable). -/
def gTwoRolled : GamePage :=
  match game_logic gTwo 3 with
  | some g => g
  | Option.none => gTwo

/-- A Bump state with the mover at cell 98, for the overshoot witness. -/
def gOver : GamePage :=
  { game_type := Mode.Bump
    dice_value := 2
    board := { tile := fun _ => Tile.none
               players := [{ name := "A", position := ⟨8, 9⟩ },
                           { name := "B", position := ⟨0, 0⟩ }] }
    player_turn := 0
    ended := false }

/-- A board with a snake at start cell 40 pointing to cell 12 and the mover
at cell 37, for the movement-resolution witness (the spec's snake scenario). -/
def gSnake : GamePage :=
  { game_type := Mode.Friendly
    dice_value := 0
    board := { tile := fun i => if i = 40 then Tile.Snake ⟨2, 1⟩ else Tile.none
               players := [{ name := "A", position := ⟨7, 3⟩ },
                           { name := "B", position := ⟨0, 0⟩ }] }
    player_turn := 0
    ended := false }

/-- The state after rolling 3 from `gSnake` (fallback unreachable). -/
def gSnakeRolled : GamePage :=
  match game_logic gSnake 3 with
  | some g => g
  | Option.none => gSnake

/-- The spec's Swap scenario: A at cell 10, B at cell 13, A rolls 3. -/
def gSwap : GamePage :=
  { game_type := Mode.Swap
    dice_value := 0
    board := { tile := fun _ => Tile.none
               players := [{ name := "A", position := ⟨0, 1⟩ },
                           { name := "B", position := ⟨3, 1⟩ }] }
    player_turn := 0
    ended := false }

/-- The state after rolling 3 from `gSwap` (fallback unreachable). -/
def gSwapRolled : GamePage :=
  match game_logic gSwap 3 with
  | some g => g
  | Option.none => gSwap

/-- A Swap state with the mover at cell 97 and nobody on cell 99, for the
amended win-rule witness. -/
def gWin : GamePage :=
  { game_type := Mode.Swap
    dice_value := 0
    board := { tile := fun _ => Tile.none
               players := [{ name := "A", position := ⟨7, 9⟩ },
                           { name := "B", position := ⟨0, 0⟩ }] }
    player_turn := 0
    ended := false }

/-- The state after rolling 2 from `gWin` (fallback unreachable). -/
def gWinRolled : GamePage :=
  match game_logic gWin 2 with
  | some g => g
  | Option.none => gWin

/-! ### List-level helper lemmas -/

theorem setPos_length (ps : List Player) (n : Nat) (q : Position) :
    (setPos ps n q).length = ps.length := by
  induction ps generalizing n with
  | nil => rfl
  | cons p ps ih =>
    cases n with
    | zero => rfl
    | succ m => simp [setPos, ih]

theorem setPos_getElem?_ne (ps : List Player) (n : Nat) (q : Position) (i : Nat)
    (h : i ≠ n) : (setPos ps n q)[i]? = ps[i]? := by
  induction ps generalizing n i with
  | nil => rfl
  | cons p ps ih =>
    cases n with
    | zero =>
      cases i with
      | zero => exact absurd rfl h
      | succ j => simp [setPos]
    | succ m =>
      cases i with
      | zero => simp [setPos]
      | succ j =>
        simp only [setPos, List.getElem?_cons_succ]
        exact ih m j (fun hh => h (by rw [hh]))

theorem setPos_getElem?_eq (ps : List Player) (n : Nat) (q : Position) :
    (setPos ps n q)[n]? = ps[n]?.map (fun p => { p with position := q }) := by
  induction ps generalizing n with
  | nil => rfl
  | cons p ps ih =>
    cases n with
    | zero => simp [setPos]
    | succ m => simpa [setPos] using ih m

theorem bumpOthersAux_getElem? (turn : Nat) (t : Position) :
    ∀ (ps : List Player) (n i : Nat),
      (bumpOthersAux turn t n ps)[i]? =
        ps[i]?.map (fun p =>
          if n + i ≠ turn ∧ p.position = t then { p with position := ⟨0, 0⟩ } else p) := by
  intro ps
  induction ps with
  | nil => intro n i; simp [bumpOthersAux]
  | cons p ps ih =>
    intro n i
    cases i with
    | zero => simp [bumpOthersAux]
    | succ j =>
      simp only [bumpOthersAux, List.getElem?_cons_succ]
      rw [ih (n + 1) j]
      have hadd : n + 1 + j = n + (j + 1) := by omega
      rw [hadd]

theorem firstOtherAux_none_iff (turn : Nat) (t : Position) :
    ∀ (ps : List Player) (n : Nat),
      firstOtherAux turn t n ps = Option.none ↔
        ∀ m, m < ps.length → n + m ≠ turn → ps[m]?.map Player.position ≠ some t := by
  intro ps
  induction ps with
  | nil => intro n; simp [firstOtherAux]
  | cons p ps ih =>
    intro n
    by_cases hc : n ≠ turn ∧ p.position = t
    · simp only [firstOtherAux, if_pos hc]
      constructor
      · intro h; exact absurd h (by simp)
      · intro h
        exact absurd (by simp [hc.2]) (h 0 (by simp) (by simpa using hc.1))
    · simp only [firstOtherAux, if_neg hc]
      rw [ih (n + 1)]
      constructor
      · intro h m hm hmt
        cases m with
        | zero =>
          intro hcon
          simp only [List.getElem?_cons_zero, Option.map_some'] at hcon
          exact hc ⟨by simpa using hmt, by simpa using hcon⟩
        | succ j =>
          have := h j (by simpa using Nat.lt_of_succ_lt_succ hm) (by omega)
          simpa using this
      · intro h m hm hmt
        have := h (m + 1) (by simpa using Nat.succ_lt_succ hm) (by omega)
        simpa using this

theorem firstOtherAux_some_iff (turn : Nat) (t : Position) :
    ∀ (ps : List Player) (n j : Nat),
      firstOtherAux turn t n ps = some j ↔
        ∃ m, m < ps.length ∧ j = n + m ∧ n + m ≠ turn ∧
          ps[m]?.map Player.position = some t ∧
          ∀ m', m' < m → n + m' ≠ turn → ps[m']?.map Player.position ≠ some t := by
  intro ps
  induction ps with
  | nil => intro n j; simp [firstOtherAux]
  | cons p ps ih =>
    intro n j
    by_cases hc : n ≠ turn ∧ p.position = t
    · simp only [firstOtherAux, if_pos hc]
      constructor
      · intro h
        refine ⟨0, by simp, ?_, by simpa using hc.1, by simp [hc.2], ?_⟩
        · have : j = n := by simpa using h.symm
          omega
        · intro m' hm'; omega
      · rintro ⟨m, hm, hj, hmt, hpos, hfirst⟩
        cases m with
        | zero => simp [hj]
        | succ j' =>
          exact absurd (by simp [hc.2]) (hfirst 0 (by omega) (by simpa using hc.1))
    · simp only [firstOtherAux, if_neg hc]
      rw [ih (n + 1) j]
      constructor
      · rintro ⟨m, hm, hj, hmt, hpos, hfirst⟩
        refine ⟨m + 1, by simpa using Nat.succ_lt_succ hm, by omega, by omega, by simpa using hpos, ?_⟩
        intro m' hm' hmt'
        cases m' with
        | zero =>
          intro hcon
          simp only [List.getElem?_cons_zero, Option.map_some'] at hcon
          exact hc ⟨by simpa using hmt', by simpa using hcon⟩
        | succ j' =>
          have := hfirst j' (by omega) (by omega)
          simpa using this
      · rintro ⟨m, hm, hj, hmt, hpos, hfirst⟩
        cases m with
        | zero =>
          exfalso
          apply hc
          constructor
          · simpa using hmt
          · simpa using hpos
        | succ j' =>
          refine ⟨j', by simpa using Nat.lt_of_succ_lt_succ hm, by omega, by omega, by simpa using hpos, ?_⟩
          intro m' hm' hmt'
          have := hfirst (m' + 1) (by omega) (by omega)
          simpa using this

/-! ### Turn-advance helper -/

theorem nextTurn_eq_mod (turn total d : Nat) (h : turn < total) :
    nextTurn turn total d = if d ≠ 6 then (turn + 1) % total else turn := by
  unfold nextTurn
  by_cases hd : d ≠ 6
  · rw [if_pos hd, if_pos hd]
    by_cases he : turn + 1 = total
    · rw [if_pos he, he, Nat.mod_self]
    · rw [if_neg he, Nat.mod_eq_of_lt (by omega)]
  · rw [if_neg hd, if_neg hd]

/-! ### Branch lemmas for `game_logic` -/

theorem game_logic_ended (g : GamePage) (d : Nat) (h : g.ended = true) :
    game_logic g d = some g := by
  unfold game_logic
  rw [h]
  rfl

theorem game_logic_overshoot (g : GamePage) (d : Nat) (current : Player)
    (hend : g.ended = false)
    (hc : g.board.players[g.player_turn]? = some current)
    (hover : 99 < cellIndex current.position + (d : Int)) :
    game_logic g d =
      some { g with
             dice_value := d
             player_turn := nextTurn g.player_turn g.board.players.length d } := by
  unfold game_logic
  rw [hend, hc]
  simp only [Bool.false_eq_true, if_false]
  rw [if_pos hover]

theorem game_logic_negative (g : GamePage) (d : Nat) (current : Player)
    (hend : g.ended = false)
    (hc : g.board.players[g.player_turn]? = some current)
    (hneg : cellIndex current.position + (d : Int) < 0) :
    game_logic g d = Option.none := by
  unfold game_logic
  rw [hend, hc]
  simp only [Bool.false_eq_true, if_false]
  rw [if_neg (by omega), if_pos hneg]

theorem game_logic_resolved (g : GamePage) (d : Nat) (current : Player)
    (hend : g.ended = false)
    (hc : g.board.players[g.player_turn]? = some current)
    (h0 : 0 ≤ cellIndex current.position + (d : Int))
    (h99 : cellIndex current.position + (d : Int) ≤ 99) :
    ∃ g', game_logic g d = some g' ∧
      g'.dice_value = d ∧
      g'.player_turn = nextTurn g.player_turn g.board.players.length d ∧
      g'.ended = decide (cellIndex current.position + (d : Int) = 99) ∧
      g'.board.tile = g.board.tile ∧
      g'.board.players =
        applyMode g.game_type g.player_turn
          (resolveTile (g.board.tile (cellIndex current.position + (d : Int)).toNat)
            (cellIndex current.position + (d : Int)))
          current.position
          (setPos g.board.players g.player_turn
            (resolveTile (g.board.tile (cellIndex current.position + (d : Int)).toNat)
              (cellIndex current.position + (d : Int)))) := by
  unfold game_logic
  rw [hend, hc]
  simp only [Bool.false_eq_true, if_false]
  rw [if_neg (by omega), if_neg (by omega)]
  exact ⟨_, rfl, rfl, rfl, rfl, rfl, rfl⟩

theorem applyMode_getElem?_turn (mode : Mode) (turn : Nat) (newP oldP : Position)
    (ps : List Player) :
    (applyMode mode turn newP oldP ps)[turn]? = ps[turn]? := by
  cases mode with
  | Friendly => rfl
  | Bump =>
    show (bumpOthersAux turn newP 0 ps)[turn]? = ps[turn]?
    rw [bumpOthersAux_getElem?]
    cases h : ps[turn]? with
    | none => rfl
    | some p => simp
  | Swap =>
    show (match firstOtherAux turn newP 0 ps with
          | some i => setPos ps i oldP
          | Option.none => ps)[turn]? = ps[turn]?
    cases hf : firstOtherAux turn newP 0 ps with
    | none => rfl
    | some j =>
      obtain ⟨m, _, hj, hmt, _, _⟩ := (firstOtherAux_some_iff turn newP ps 0 j).mp hf
      exact setPos_getElem?_ne ps j oldP turn (by omega)

/-! ### Claim theorems: the ended no-op, the turn advance, overshoot, resolution -/

/-- C3: `rollTurn` on an `ended` state is a no-op: `game_logic` returns the
input state itself, so every player's position, the `ended` flag and the
current-turn index are all unchanged. -/
theorem rollTurn_ended_noop (g : GamePage) (d : Nat) (h : g.ended = true) :
    game_logic g d = some g :=
  game_logic_ended g d h

theorem rollTurn_ended_noop_witness :
    gEnded.ended = true ∧ game_logic gEnded 3 = some gEnded :=
  ⟨rfl, rollTurn_ended_noop gEnded 3 rfl⟩

/-- C10: `rollTurn` on an `ended` state leaves the last dice value unchanged:
the early return in `game_logic` happens before `roll_dice` is called, so the
stale dice value from the winning turn is kept. -/
theorem rollTurn_ended_dice_stale (g : GamePage) (d : Nat) (h : g.ended = true)
    (g' : GamePage) (h2 : game_logic g d = some g') :
    g'.dice_value = g.dice_value := by
  rw [game_logic_ended g d h, Option.some_inj] at h2
  rw [← h2]

theorem rollTurn_ended_dice_stale_witness :
    gEnded.ended = true ∧ game_logic gEnded 5 = some gEnded ∧
      gEnded.dice_value = gEnded.dice_value :=
  ⟨rfl, rfl, rollTurn_ended_dice_stale gEnded 5 rfl gEnded rfl⟩

/-- C4: on a non-ended state, a dice value other than 6 advances the turn
index circularly (wrapping from the last player to 0) in every outcome of the
call, while a dice value of 6 leaves the turn index unchanged. -/
theorem rollTurn_turn_advance (g : GamePage) (d : Nat)
    (hend : g.ended = false) (ht : g.player_turn < g.board.players.length)
    (hd1 : 1 ≤ d) (hd6 : d ≤ 6)
    (g' : GamePage) (h2 : game_logic g d = some g') :
    (d ≠ 6 → g'.player_turn = (g.player_turn + 1) % g.board.players.length) ∧
    (d = 6 → g'.player_turn = g.player_turn) := by
  obtain ⟨current, hc⟩ : ∃ c, g.board.players[g.player_turn]? = some c := by
    rw [List.getElem?_eq_getElem ht]
    exact ⟨_, rfl⟩
  have key : g'.player_turn = nextTurn g.player_turn g.board.players.length d := by
    by_cases hover : 99 < cellIndex current.position + (d : Int)
    · rw [game_logic_overshoot g d current hend hc hover, Option.some_inj] at h2
      rw [← h2]
    · by_cases hneg : cellIndex current.position + (d : Int) < 0
      · rw [game_logic_negative g d current hend hc hneg] at h2
        exact absurd h2 (by simp)
      · obtain ⟨g2, hg2, _, hturn, _, _, _⟩ :=
          game_logic_resolved g d current hend hc (by omega) (by omega)
        rw [hg2, Option.some_inj] at h2
        rw [← h2, hturn]
  rw [key, nextTurn_eq_mod _ _ _ ht]
  constructor
  · intro h6
    rw [if_pos h6]
  · intro h6
    rw [if_neg (by simp [h6])]

theorem rollTurn_turn_advance_witness :
    gTwo.ended = false ∧ gTwo.player_turn < gTwo.board.players.length ∧
      game_logic gTwo 3 = some gTwoRolled ∧
      (3 ≠ 6 → gTwoRolled.player_turn = (gTwo.player_turn + 1) % gTwo.board.players.length) ∧
      (3 = 6 → gTwoRolled.player_turn = gTwo.player_turn) :=
  ⟨rfl, by decide, rfl,
    rollTurn_turn_advance gTwo 3 rfl (by decide) (by decide) (by decide) gTwoRolled rfl⟩

/-- C5: on a non-ended state whose mover would overshoot (current cell index
plus dice value exceeds 99), the whole player list is returned unchanged while
the dice value is updated and the turn index still advances per the dice rule;
the `ended` flag stays as it was. -/
theorem rollTurn_overshoot (g : GamePage) (d : Nat) (current : Player)
    (hend : g.ended = false) (ht : g.player_turn < g.board.players.length)
    (hc : g.board.players[g.player_turn]? = some current)
    (hd1 : 1 ≤ d) (hd6 : d ≤ 6)
    (hover : 99 < cellIndex current.position + (d : Int)) :
    ∃ g', game_logic g d = some g' ∧
      g'.board.players = g.board.players ∧
      g'.dice_value = d ∧
      (d ≠ 6 → g'.player_turn = (g.player_turn + 1) % g.board.players.length) ∧
      (d = 6 → g'.player_turn = g.player_turn) ∧
      g'.ended = g.ended := by
  refine ⟨_, game_logic_overshoot g d current hend hc hover, rfl, rfl, ?_, ?_, rfl⟩
  · intro h6
    show nextTurn g.player_turn g.board.players.length d = _
    rw [nextTurn_eq_mod _ _ _ ht, if_pos h6]
  · intro h6
    show nextTurn g.player_turn g.board.players.length d = _
    rw [nextTurn_eq_mod _ _ _ ht, if_neg (by simp [h6])]

/-- C6: when movement is resolved (target index between 0 and 99), the mover's
new position is the tile's stored exit cell if the tile at the target index is
a `Snake` or a `Ladder`, and the target cell itself otherwise — in particular
a player landing exactly on a snake's start cell is relocated to the snake's
exit cell, never left at the start cell. -/
theorem rollTurn_move_resolution (g : GamePage) (d : Nat) (current : Player)
    (hend : g.ended = false)
    (hc : g.board.players[g.player_turn]? = some current)
    (hd1 : 1 ≤ d) (hd6 : d ≤ 6)
    (h0 : 0 ≤ cellIndex current.position + (d : Int))
    (h99 : cellIndex current.position + (d : Int) ≤ 99)
    (g' : GamePage) (h2 : game_logic g d = some g') :
    (∀ p, g.board.tile (cellIndex current.position + (d : Int)).toNat = Tile.Snake p →
      g'.board.players[g.player_turn]?.map Player.position = some p) ∧
    (∀ p, g.board.tile (cellIndex current.position + (d : Int)).toNat = Tile.Ladder p →
      g'.board.players[g.player_turn]?.map Player.position = some p) ∧
    ((g.board.tile (cellIndex current.position + (d : Int)).toNat = Tile.Target ∨
      g.board.tile (cellIndex current.position + (d : Int)).toNat = Tile.none) →
      g'.board.players[g.player_turn]?.map Player.position =
        some ⟨(cellIndex current.position + (d : Int)) % 10,
              (cellIndex current.position + (d : Int)) / 10⟩) := by
  obtain ⟨g2, hg2, _, _, _, _, hps⟩ := game_logic_resolved g d current hend hc h0 h99
  rw [hg2, Option.some_inj] at h2
  subst h2
  have hmover : g2.board.players[g.player_turn]?.map Player.position =
      some (resolveTile (g.board.tile (cellIndex current.position + (d : Int)).toNat)
        (cellIndex current.position + (d : Int))) := by
    rw [hps, applyMode_getElem?_turn, setPos_getElem?_eq, hc]
    rfl
  refine ⟨?_, ?_, ?_⟩
  · intro p hp
    rw [hmover, hp]
    rfl
  · intro p hp
    rw [hmover, hp]
    rfl
  · intro hp
    rcases hp with hp | hp <;> rw [hmover, hp] <;> rfl

theorem rollTurn_move_resolution_witness :
    gSnake.board.tile 40 = Tile.Snake ⟨2, 1⟩ ∧
    gSnake.board.players[0]?.map Player.position = some ⟨7, 3⟩ ∧
    gSnakeRolled.board.players[0]?.map Player.position = some ⟨2, 1⟩ :=
  ⟨rfl, rfl,
    (rollTurn_move_resolution gSnake 3 { name := "A", position := ⟨7, 3⟩ } rfl rfl
      (by decide) (by decide) (by decide) (by decide) gSnakeRolled rfl).1 ⟨2, 1⟩ rfl⟩

/-- C7: in Swap mode, for a non-winning resolved move, exactly the first other
player in original list order (skipping the mover) whose position equals the
mover's resolved new position `np` is relocated to the mover's pre-move cell;
every other non-mover — later occupants of that cell included — keeps its
position. -/
theorem rollTurn_swap_rule (g : GamePage) (d : Nat) (current : Player)
    (hmode : g.game_type = Mode.Swap)
    (hend : g.ended = false)
    (hc : g.board.players[g.player_turn]? = some current)
    (hd1 : 1 ≤ d) (hd6 : d ≤ 6)
    (h0 : 0 ≤ cellIndex current.position + (d : Int))
    (h98 : cellIndex current.position + (d : Int) ≤ 98)
    (np : Position)
    (hnp : np = resolveTile (g.board.tile (cellIndex current.position + (d : Int)).toNat)
        (cellIndex current.position + (d : Int)))
    (g' : GamePage) (h2 : game_logic g d = some g') :
    (∀ j, j ≠ g.player_turn →
      g.board.players[j]?.map Player.position = some np →
      (∀ i, i < j → i ≠ g.player_turn →
        g.board.players[i]?.map Player.position ≠ some np) →
      g'.board.players[j]?.map Player.position = some current.position) ∧
    (∀ j, j ≠ g.player_turn →
      (g.board.players[j]?.map Player.position ≠ some np ∨
        ∃ i, i < j ∧ i ≠ g.player_turn ∧
          g.board.players[i]?.map Player.position = some np) →
      g'.board.players[j]?.map Player.position = g.board.players[j]?.map Player.position) := by
  obtain ⟨g2, hg2, _, _, _, _, hps⟩ :=
    game_logic_resolved g d current hend hc h0 (by omega)
  rw [hg2, Option.some_inj] at h2
  subst h2
  rw [hmode, ← hnp] at hps
  have hps1 : ∀ i, i ≠ g.player_turn →
      (setPos g.board.players g.player_turn np)[i]? = g.board.players[i]? :=
    fun i hi => setPos_getElem?_ne g.board.players g.player_turn np i hi
  constructor
  · intro j hj hjnp hjfirst
    have hfound : firstOtherAux g.player_turn np 0
        (setPos g.board.players g.player_turn np) = some j := by
      rw [firstOtherAux_some_iff]
      refine ⟨j, ?_, by omega, by omega, ?_, ?_⟩
      · rw [setPos_length]
        cases hq : g.board.players[j]? with
        | none => rw [hq] at hjnp; exact absurd hjnp (by simp)
        | some q => exact (List.getElem?_eq_some.mp hq).1
      · rw [hps1 j hj]
        exact hjnp
      · intro i hi hit
        rw [Nat.zero_add] at hit
        rw [hps1 i hit]
        exact hjfirst i hi hit
    have hbody : g2.board.players =
        setPos (setPos g.board.players g.player_turn np) j current.position := by
      rw [hps]
      show (match firstOtherAux g.player_turn np 0
          (setPos g.board.players g.player_turn np) with
        | some i => setPos (setPos g.board.players g.player_turn np) i current.position
        | Option.none => setPos g.board.players g.player_turn np) = _
      rw [hfound]
    rw [hbody, setPos_getElem?_eq, hps1 j hj]
    cases hq : g.board.players[j]? with
    | none => rw [hq] at hjnp; exact absurd hjnp (by simp)
    | some q => rfl
  · intro j hj hcase
    cases hf : firstOtherAux g.player_turn np 0
        (setPos g.board.players g.player_turn np) with
    | none =>
      have hbody : g2.board.players = setPos g.board.players g.player_turn np := by
        rw [hps]
        show (match firstOtherAux g.player_turn np 0
            (setPos g.board.players g.player_turn np) with
          | some i => setPos (setPos g.board.players g.player_turn np) i current.position
          | Option.none => setPos g.board.players g.player_turn np) = _
        rw [hf]
      rw [hbody, hps1 j hj]
    | some i0 =>
      obtain ⟨m, hm, hi0, hmt, hmpos, hmfirst⟩ :=
        (firstOtherAux_some_iff g.player_turn np
          (setPos g.board.players g.player_turn np) 0 i0).mp hf
      rw [Nat.zero_add] at hi0
      subst hi0
      rw [Nat.zero_add] at hmt
      have hji0 : j ≠ i0 := by
        intro hjm
        cases hcase with
        | inl hne =>
          apply hne
          rw [← hps1 j hj, hjm]
          exact hmpos
        | inr hex =>
          obtain ⟨i, hij, hit, hipos⟩ := hex
          have hlt : i < i0 := by omega
          have := hmfirst i hlt (by omega)
          rw [hps1 i hit] at this
          exact this hipos
      have hbody : g2.board.players =
          setPos (setPos g.board.players g.player_turn np) i0 current.position := by
        rw [hps]
        show (match firstOtherAux g.player_turn np 0
            (setPos g.board.players g.player_turn np) with
          | some i => setPos (setPos g.board.players g.player_turn np) i current.position
          | Option.none => setPos g.board.players g.player_turn np) = _
        rw [hf]
      rw [hbody, setPos_getElem?_ne _ _ _ _ hji0, hps1 j hj]

theorem rollTurn_swap_rule_witness :
    gSwap.board.players.map Player.position = [⟨0, 1⟩, ⟨3, 1⟩] ∧
    gSwapRolled.board.players[1]?.map Player.position = some ⟨0, 1⟩ :=
  ⟨rfl,
    (rollTurn_swap_rule gSwap 3 { name := "A", position := ⟨0, 1⟩ } rfl rfl rfl
      (by decide) (by decide) (by decide) (by decide) ⟨3, 1⟩ (by decide)
      gSwapRolled rfl).1 1 (by decide) rfl
      (by
        intro i hi hit
        exfalso
        rw [show gSwap.player_turn = 0 from rfl] at hit
        omega)⟩

/-- C1 counterexample: in `c1Ex` (Bump mode, mover at cell 97, another player
sitting on cell 99) the mover's computed target index is exactly 99, and the
call does set the mover to cell 99 and `ended` to `true` — but it does not
stop there: the Bump interaction still runs and relocates the player on cell
99 to cell 0, so another player is mutated in the same call. -/
theorem rollTurn_win_mode_interaction_cex :
    cellIndex ⟨7, 9⟩ + (2 : Int) = 99 ∧
    c1Ex.game_type = Mode.Bump ∧
    c1Ex.board.players[1]?.map Player.position = some ⟨9, 9⟩ ∧
    (game_logic c1Ex 2).map
        (fun g' => (g'.ended, g'.board.players.map Player.position)) =
      some (true, [⟨9, 9⟩, ⟨0, 0⟩]) := by
  decide

/-- C1 (amended): if the mover's target index is exactly 99, the tile at cell
99 is not a snake or ladder start (generation guarantees this), and no other
player occupies cell 99 (always true in reachable play, since a player only
reaches cell 99 when the game ends), then the call sets the mover's position
to cell 99, sets `ended` to `true`, and mutates no other player in any mode —
the mode-interaction code is not structurally skipped after a win, but it has
no effect under these conditions. -/
theorem rollTurn_win_rule (g : GamePage) (d : Nat) (current : Player)
    (hend : g.ended = false)
    (hc : g.board.players[g.player_turn]? = some current)
    (hd1 : 1 ≤ d) (hd6 : d ≤ 6)
    (hwin : cellIndex current.position + (d : Int) = 99)
    (htile : g.board.tile 99 = Tile.Target ∨ g.board.tile 99 = Tile.none)
    (hothers : ∀ i, i ≠ g.player_turn →
      g.board.players[i]?.map Player.position ≠ some ⟨9, 9⟩)
    (g' : GamePage) (h2 : game_logic g d = some g') :
    g'.ended = true ∧
    g'.board.players[g.player_turn]?.map Player.position = some ⟨9, 9⟩ ∧
    (∀ i, i ≠ g.player_turn →
      g'.board.players[i]?.map Player.position =
        g.board.players[i]?.map Player.position) := by
  obtain ⟨g2, hg2, _, _, hended, _, hps⟩ :=
    game_logic_resolved g d current hend hc (by omega) (by omega)
  rw [hg2, Option.some_inj] at h2
  subst h2
  have hnewP : resolveTile (g.board.tile (cellIndex current.position + (d : Int)).toNat)
      (cellIndex current.position + (d : Int)) = ⟨9, 9⟩ := by
    have hidx : (cellIndex current.position + (d : Int)).toNat = 99 := by
      rw [hwin]
      rfl
    rw [hidx, hwin]
    rcases htile with ht | ht <;> rw [ht] <;> decide
  rw [hnewP] at hps
  refine ⟨?_, ?_, ?_⟩
  · rw [hended, hwin]
    decide
  · rw [hps, applyMode_getElem?_turn, setPos_getElem?_eq, hc]
    rfl
  · intro i hi
    have hps1 : (setPos g.board.players g.player_turn (⟨9, 9⟩ : Position))[i]? =
        g.board.players[i]? :=
      setPos_getElem?_ne _ _ _ _ hi
    rw [hps]
    cases hmode : g.game_type with
    | Friendly =>
      show (setPos g.board.players g.player_turn
          (⟨9, 9⟩ : Position))[i]?.map Player.position = _
      rw [hps1]
    | Bump =>
      show (bumpOthersAux g.player_turn ⟨9, 9⟩ 0
          (setPos g.board.players g.player_turn ⟨9, 9⟩))[i]?.map Player.position = _
      rw [bumpOthersAux_getElem?, hps1]
      cases hq : g.board.players[i]? with
      | none => rfl
      | some q =>
        have hQ : q.position ≠ (⟨9, 9⟩ : Position) := by
          intro hq9
          exact hothers i hi (by rw [hq]; simp [hq9])
        simp [hQ]
    | Swap =>
      have hnone : firstOtherAux g.player_turn ⟨9, 9⟩ 0
          (setPos g.board.players g.player_turn ⟨9, 9⟩) = Option.none := by
        rw [firstOtherAux_none_iff]
        intro m hmlen hmt
        rw [Nat.zero_add] at hmt
        rw [setPos_getElem?_ne _ _ _ _ hmt]
        exact hothers m hmt
      show (match firstOtherAux g.player_turn ⟨9, 9⟩ 0
            (setPos g.board.players g.player_turn ⟨9, 9⟩) with
          | some i2 => setPos (setPos g.board.players g.player_turn ⟨9, 9⟩) i2
              current.position
          | Option.none =>
              setPos g.board.players g.player_turn ⟨9, 9⟩)[i]?.map Player.position = _
      rw [hnone, hps1]

theorem rollTurn_win_rule_witness :
    gWinRolled.ended = true ∧
    gWinRolled.board.players[0]?.map Player.position = some ⟨9, 9⟩ ∧
    gWinRolled.board.players[1]?.map Player.position =
      gWin.board.players[1]?.map Player.position := by
  have h := rollTurn_win_rule gWin 2 { name := "A", position := ⟨7, 9⟩ } rfl rfl
    (by decide) (by decide) (by decide) (Or.inr rfl)
    (by
      intro i hi
      match i with
      | 0 => exact absurd rfl hi
      | 1 => decide
      | n + 2 =>
        rw [show gWin.board.players[n + 2]? = Option.none from rfl]
        simp)
    gWinRolled rfl
  exact ⟨h.1, h.2.1, h.2.2 1 (by decide)⟩

/-! ### Counting lemmas for the generated grid -/

theorem countP_ext {α : Type} (p q : α → Bool) :
    ∀ l : List α, (∀ a ∈ l, p a = q a) → l.countP p = l.countP q := by
  intro l
  induction l with
  | nil => intro _; rfl
  | cons a l ih =>
    intro h
    rw [List.countP_cons, List.countP_cons, h a (by simp),
      ih (fun b hb => h b (by simp [hb]))]

theorem countCells_setCell (g : Grid) (j : Nat) (t : Tile) (p : Tile → Bool)
    (hj : j < 100) (hgj : p (g j) = false) :
    countCells (setCell g j t) p = countCells g p + (if p t then 1 else 0) := by
  have main : ∀ n, j < n → (List.range n).countP (fun i => p (setCell g j t i)) =
      (List.range n).countP (fun i => p (g i)) + (if p t then 1 else 0) := by
    intro n
    induction n with
    | zero => intro h; exact absurd h (Nat.not_lt_zero j)
    | succ m ih =>
      intro hjn
      rw [List.range_succ, List.countP_append, List.countP_append]
      by_cases hjm : j < m
      · rw [ih hjm]
        have hne : setCell g j t m = g m := by
          unfold setCell
          rw [if_neg (by omega)]
        simp only [List.countP_cons, List.countP_nil, hne]
        omega
      · have hjm2 : j = m := by omega
        subst hjm2
        have heq : (List.range j).countP (fun i => p (setCell g j t i)) =
            (List.range j).countP (fun i => p (g i)) := by
          apply countP_ext
          intro a ha
          rw [List.mem_range] at ha
          unfold setCell
          rw [if_neg (by omega)]
        have hset : setCell g j t j = t := by
          unfold setCell
          rw [if_pos rfl]
        rw [heq]
        simp only [List.countP_cons, List.countP_nil, hset, hgj,
          Bool.false_eq_true, if_false]
        omega
  exact main 100 hj

theorem countCells_init (p : Tile → Bool) (hp : p Tile.none = false) :
    countCells (fun _ => Tile.none) p = 0 := by
  unfold countCells
  rw [List.countP_eq_zero]
  intro a _
  simp [hp]

/-! ### Soundness of one `add_snl` pass -/

/-- If an `add_snl` pass completes: previously occupied cells are untouched,
every changed cell is either a fresh `Target` exit marker or a fresh `mk`
placement whose start lies in the configured start range, whose exit lies in
the configured exit range and is marked `Target` in the final grid; and for
any tile predicate `p` (with its values on `mk`, `Target` and `None` given)
the cell count grows by exactly one placement's worth per item. -/
theorem addSnl_spec (rsLo rsHi : Nat) (reLo reHi : Nat → Nat) (mk : Nat → Tile)
    (maxA : Nat)
    (hrs : rsLo < rsHi) (hrs100 : rsHi ≤ 100)
    (hre : ∀ s, rsLo ≤ s → s < rsHi → reLo s < reHi s)
    (hre100 : ∀ s, rsLo ≤ s → s < rsHi → reHi s ≤ 100)
    (hnese : ∀ s e, rsLo ≤ s → s < rsHi → reLo s ≤ e → e < reHi s → e ≠ s)
    (hmk : ∀ e, mk e ≠ Tile.none) :
    ∀ (rng : List Nat) (k : Nat) (tile : Grid) (attempts : Nat) (phase : Option Nat)
      (tile' : Grid) (rng' : List Nat),
      addSnl rsLo rsHi reLo reHi mk maxA rng k tile attempts phase = some (tile', rng') →
      (∀ s, phase = some s → tile s = Tile.none ∧ rsLo ≤ s ∧ s < rsHi) →
      (∀ i, tile i ≠ Tile.none → tile' i = tile i) ∧
      (∀ i, tile' i ≠ tile i → tile i = Tile.none ∧ i < 100 ∧
        (tile' i = Tile.Target ∨ ∃ e, tile' i = mk e ∧ rsLo ≤ i ∧ i < rsHi ∧
          reLo i ≤ e ∧ e < reHi i ∧ tile' e = Tile.Target)) ∧
      (∀ (p : Tile → Bool) (b1 b2 : Bool), (∀ e, p (mk e) = b1) →
        p Tile.Target = b2 → p Tile.none = false →
        countCells tile' p =
          countCells tile p + k * ((if b1 then 1 else 0) + (if b2 then 1 else 0))) := by
  intro rng
  induction rng with
  | nil =>
    intro k tile attempts phase tile' rng' hrun _
    cases k with
    | zero =>
      rw [show addSnl rsLo rsHi reLo reHi mk maxA [] 0 tile attempts phase =
        some (tile, []) from rfl, Option.some_inj, Prod.mk.injEq] at hrun
      obtain ⟨h1, _⟩ := hrun
      subst h1
      refine ⟨fun i _ => rfl, fun i hi => absurd rfl hi, fun p b1 b2 _ _ _ => by simp⟩
    | succ k =>
      rw [show addSnl rsLo rsHi reLo reHi mk maxA [] (k + 1) tile attempts phase =
        Option.none from rfl] at hrun
      exact Option.noConfusion hrun
  | cons v rng ih =>
    intro k tile attempts phase tile' rng' hrun hphase
    cases k with
    | zero =>
      rw [show addSnl rsLo rsHi reLo reHi mk maxA (v :: rng) 0 tile attempts phase =
        some (tile, v :: rng) from rfl, Option.some_inj, Prod.mk.injEq] at hrun
      obtain ⟨h1, _⟩ := hrun
      subst h1
      refine ⟨fun i _ => rfl, fun i hi => absurd rfl hi, fun p b1 b2 _ _ _ => by simp⟩
    | succ k =>
      cases phase with
      | none =>
        rw [show addSnl rsLo rsHi reLo reHi mk maxA (v :: rng) (k + 1) tile attempts
            Option.none =
          (if tile (genRange rsLo rsHi v) ≠ Tile.none then
            addSnl rsLo rsHi reLo reHi mk maxA rng (k + 1) tile attempts Option.none
          else
            addSnl rsLo rsHi reLo reHi mk maxA rng (k + 1) tile attempts
              (some (genRange rsLo rsHi v))) from rfl] at hrun
        by_cases hs : tile (genRange rsLo rsHi v) ≠ Tile.none
        · rw [if_pos hs] at hrun
          exact ih (k + 1) tile attempts Option.none tile' rng' hrun
            (fun s hss => Option.noConfusion hss)
        · rw [if_neg hs] at hrun
          apply ih (k + 1) tile attempts (some (genRange rsLo rsHi v)) tile' rng' hrun
          intro s hss
          injection hss with hh
          subst hh
          push_neg at hs
          refine ⟨hs, Nat.le_add_right _ _, ?_⟩
          have : v % (rsHi - rsLo) < rsHi - rsLo := Nat.mod_lt _ (by omega)
          unfold genRange
          omega
      | some s =>
        obtain ⟨hsN, hsLo, hsHi⟩ := hphase s rfl
        rw [show addSnl rsLo rsHi reLo reHi mk maxA (v :: rng) (k + 1) tile attempts
            (some s) =
          (if tile (genRange (reLo s) (reHi s) v) ≠ Tile.none then
            (if attempts + 1 > maxA then
              addSnl rsLo rsHi reLo reHi mk maxA rng (k + 1) tile (attempts + 1)
                Option.none
            else
              addSnl rsLo rsHi reLo reHi mk maxA rng (k + 1) tile (attempts + 1)
                (some s))
          else
            addSnl rsLo rsHi reLo reHi mk maxA rng k
              (setCell (setCell tile s (mk (genRange (reLo s) (reHi s) v)))
                (genRange (reLo s) (reHi s) v) Tile.Target) 0 Option.none)
          from rfl] at hrun
        by_cases hocc : tile (genRange (reLo s) (reHi s) v) ≠ Tile.none
        · rw [if_pos hocc] at hrun
          by_cases hatt : attempts + 1 > maxA
          · rw [if_pos hatt] at hrun
            exact ih (k + 1) tile (attempts + 1) Option.none tile' rng' hrun
              (fun s' hss => Option.noConfusion hss)
          · rw [if_neg hatt] at hrun
            apply ih (k + 1) tile (attempts + 1) (some s) tile' rng' hrun
            intro s' hss
            injection hss with hh
            subst hh
            exact ⟨hsN, hsLo, hsHi⟩
        · rw [if_neg hocc] at hrun
          push_neg at hocc
          have heLo : reLo s ≤ genRange (reLo s) (reHi s) v := Nat.le_add_right _ _
          have heHi : genRange (reLo s) (reHi s) v < reHi s := by
            have h1 : reLo s < reHi s := hre s hsLo hsHi
            have h2 : v % (reHi s - reLo s) < reHi s - reLo s := Nat.mod_lt _ (by omega)
            unfold genRange
            omega
          have hes : genRange (reLo s) (reHi s) v ≠ s :=
            hnese s _ hsLo hsHi heLo heHi
          have hs100 : s < 100 := by omega
          have he100 : genRange (reLo s) (reHi s) v < 100 := by
            have := hre100 s hsLo hsHi
            omega
          have ht1s : (setCell (setCell tile s (mk (genRange (reLo s) (reHi s) v)))
              (genRange (reLo s) (reHi s) v) Tile.Target) s =
              mk (genRange (reLo s) (reHi s) v) := by
            unfold setCell
            rw [if_neg (fun hh => hes hh.symm), if_pos rfl]
          have ht1e : (setCell (setCell tile s (mk (genRange (reLo s) (reHi s) v)))
              (genRange (reLo s) (reHi s) v) Tile.Target)
              (genRange (reLo s) (reHi s) v) = Tile.Target := by
            unfold setCell
            rw [if_pos rfl]
          have ht1other : ∀ i, i ≠ s → i ≠ genRange (reLo s) (reHi s) v →
              (setCell (setCell tile s (mk (genRange (reLo s) (reHi s) v)))
                (genRange (reLo s) (reHi s) v) Tile.Target) i = tile i := by
            intro i his hie
            unfold setCell
            rw [if_neg hie, if_neg his]
          obtain ⟨A1, A2, A3⟩ := ih k _ 0 Option.none tile' rng' hrun
            (fun s' hss => Option.noConfusion hss)
          refine ⟨?_, ?_, ?_⟩
          · intro i hi
            have his : i ≠ s := fun hh => hi (hh ▸ hsN)
            have hie : i ≠ genRange (reLo s) (reHi s) v := fun hh => hi (hh ▸ hocc)
            rw [A1 i (by rw [ht1other i his hie]; exact hi), ht1other i his hie]
          · intro i hchg
            by_cases his : i = s
            · have htl : tile' s = mk (genRange (reLo s) (reHi s) v) := by
                rw [A1 s (by rw [ht1s]; exact hmk _), ht1s]
              have hte : tile' (genRange (reLo s) (reHi s) v) = Tile.Target := by
                rw [A1 _ (by rw [ht1e]; exact fun hh => Tile.noConfusion hh), ht1e]
              rw [his]
              exact ⟨hsN, hs100, Or.inr ⟨_, htl, hsLo, hsHi, heLo, heHi, hte⟩⟩
            · by_cases hie : i = genRange (reLo s) (reHi s) v
              · have hte : tile' (genRange (reLo s) (reHi s) v) = Tile.Target := by
                  rw [A1 _ (by rw [ht1e]; exact fun hh => Tile.noConfusion hh), ht1e]
                rw [hie]
                exact ⟨hocc, he100, Or.inl hte⟩
              · have h1 : (setCell (setCell tile s (mk (genRange (reLo s) (reHi s) v)))
                    (genRange (reLo s) (reHi s) v) Tile.Target) i = tile i :=
                  ht1other i his hie
                have hchg1 : tile' i ≠ (setCell (setCell tile s
                    (mk (genRange (reLo s) (reHi s) v)))
                    (genRange (reLo s) (reHi s) v) Tile.Target) i := by
                  rw [h1]
                  exact hchg
                obtain ⟨hN, h100, hdis⟩ := A2 i hchg1
                rw [h1] at hN
                exact ⟨hN, h100, hdis⟩
          · intro p b1 b2 hp1 hp2 hp3
            have hmid : (setCell tile s (mk (genRange (reLo s) (reHi s) v)))
                (genRange (reLo s) (reHi s) v) = tile (genRange (reLo s) (reHi s) v) := by
              unfold setCell
              rw [if_neg hes]
            have step1 : countCells (setCell tile s (mk (genRange (reLo s) (reHi s) v))) p =
                countCells tile p + (if b1 then 1 else 0) := by
              rw [countCells_setCell tile s _ p hs100 (by rw [hsN]; exact hp3), hp1]
            have step2 : countCells (setCell (setCell tile s
                (mk (genRange (reLo s) (reHi s) v)))
                (genRange (reLo s) (reHi s) v) Tile.Target) p =
                countCells (setCell tile s (mk (genRange (reLo s) (reHi s) v))) p +
                  (if b2 then 1 else 0) := by
              rw [countCells_setCell _ _ _ p he100 (by rw [hmid, hocc]; exact hp3), hp2]
            rw [A3 p b1 b2 hp1 hp2 hp3, step2, step1]
            ring

/-- C8: for every random stream on which `Board::new` completes, the final
grid has exactly 8 snake starts, exactly 8 ladder starts and exactly 16 exit
markers (so every placement went to a fresh cell and no two special tiles
share a cell); every snake's stored exit is a cell whose row is strictly
below the start row; every ladder's stored exit is a cell whose row is
strictly above the start row; and every exit cell carries the `Target`
marker in the final grid. -/
theorem board_invariants (rng : List Nat) (g : Grid) (rest : List Nat)
    (h : boardNew rng = some (g, rest)) :
    countCells g isSnakeB = 8 ∧ countCells g isLadderB = 8 ∧
    countCells g isTargetB = 16 ∧
    (∀ i pos, g i = Tile.Snake pos → ∃ e, pos = posOfCell e ∧
      e / 10 < i / 10 ∧ g e = Tile.Target) ∧
    (∀ i pos, g i = Tile.Ladder pos → ∃ e, pos = posOfCell e ∧
      i / 10 < e / 10 ∧ g e = Tile.Target) := by
  unfold boardNew at h
  cases hsn : addSnl 10 99 (fun _ => 1) (fun s => (s / 10) * 10)
      (fun e => Tile.Snake (posOfCell e)) 50 rng 8 (fun _ => Tile.none) 0
      Option.none with
  | none =>
    rw [hsn] at h
    exact Option.noConfusion h
  | some pr =>
    obtain ⟨t1, rng1⟩ := pr
    rw [hsn] at h
    obtain ⟨S1, S2, S3⟩ := addSnl_spec 10 99 (fun _ => 1) (fun s => (s / 10) * 10)
      (fun e => Tile.Snake (posOfCell e)) 50
      (by omega) (by omega)
      (fun s h1 h2 => by show (1 : Nat) < s / 10 * 10; omega)
      (fun s h1 h2 => by show s / 10 * 10 ≤ 100; omega)
      (fun s e h1 h2 h3 h4 => by
        have h4a : e < s / 10 * 10 := h4
        omega)
      (fun e hh => Tile.noConfusion hh)
      rng 8 (fun _ => Tile.none) 0 Option.none t1 rng1 hsn
      (fun s hss => Option.noConfusion hss)
    obtain ⟨L1, L2, L3⟩ := addSnl_spec 1 90 (fun s => (s / 10 + 1) * 10) (fun _ => 99)
      (fun e => Tile.Ladder (posOfCell e)) 50
      (by omega) (by omega)
      (fun s h1 h2 => by show (s / 10 + 1) * 10 < 99; omega)
      (fun s h1 h2 => by show (99 : Nat) ≤ 100; omega)
      (fun s e h1 h2 h3 h4 => by
        have h3a : (s / 10 + 1) * 10 ≤ e := h3
        omega)
      (fun e hh => Tile.noConfusion hh)
      rng1 8 t1 0 Option.none g rest h
      (fun s hss => Option.noConfusion hss)
    have hinit : ∀ p : Tile → Bool, p Tile.none = false →
        countCells (fun _ => Tile.none) p = 0 := fun p hp => countCells_init p hp
    refine ⟨?_, ?_, ?_, ?_, ?_⟩
    · rw [L3 isSnakeB false false (fun e => rfl) rfl rfl,
        S3 isSnakeB true false (fun e => rfl) rfl rfl,
        hinit isSnakeB rfl]
      decide
    · rw [L3 isLadderB true false (fun e => rfl) rfl rfl,
        S3 isLadderB false false (fun e => rfl) rfl rfl,
        hinit isLadderB rfl]
      decide
    · rw [L3 isTargetB false true (fun e => rfl) rfl rfl,
        S3 isTargetB false true (fun e => rfl) rfl rfl,
        hinit isTargetB rfl]
      decide
    · intro i pos hgi
      by_cases hthru : g i = t1 i
      · rw [hthru] at hgi
        have hchg : t1 i ≠ (fun _ => Tile.none) i := by
          rw [hgi]
          exact fun hh => Tile.noConfusion hh
        obtain ⟨_, _, hdis⟩ := S2 i hchg
        rcases hdis with hT | ⟨e, hmk2, hiLo, hiHi, heLo, heHi, heT⟩
        · rw [hgi] at hT
          exact Tile.noConfusion hT
        · rw [hgi] at hmk2
          injection hmk2 with hpos
          refine ⟨e, hpos, by omega, ?_⟩
          rw [L1 e (by rw [heT]; exact fun hh => Tile.noConfusion hh), heT]
      · obtain ⟨_, _, hdis⟩ := L2 i hthru
        rcases hdis with hT | ⟨e, hmk2, _, _, _, _, _⟩
        · rw [hgi] at hT
          exact Tile.noConfusion hT
        · rw [hgi] at hmk2
          exact Tile.noConfusion hmk2
    · intro i pos hgi
      by_cases hthru : g i = t1 i
      · rw [hthru] at hgi
        have hchg : t1 i ≠ (fun _ => Tile.none) i := by
          rw [hgi]
          exact fun hh => Tile.noConfusion hh
        obtain ⟨_, _, hdis⟩ := S2 i hchg
        rcases hdis with hT | ⟨e, hmk2, _, _, _, _, _⟩
        · rw [hgi] at hT
          exact Tile.noConfusion hT
        · rw [hgi] at hmk2
          exact Tile.noConfusion hmk2
      · obtain ⟨_, _, hdis⟩ := L2 i hthru
        rcases hdis with hT | ⟨e, hmk2, hiLo, hiHi, heLo, heHi, heT⟩
        · rw [hgi] at hT
          exact Tile.noConfusion hT
        · rw [hgi] at hmk2
          injection hmk2 with hpos
          exact ⟨e, hpos, by omega, heT⟩

theorem board_invariants_witness :
    boardNew wStream = some (wGrid, []) ∧
    countCells wGrid isSnakeB = 8 ∧ countCells wGrid isLadderB = 8 ∧
    countCells wGrid isTargetB = 16 := by
  have h := board_invariants wStream wGrid [] rfl
  exact ⟨rfl, h.1, h.2.1, h.2.2.1⟩

theorem rollTurn_overshoot_witness :
    99 < cellIndex ⟨8, 9⟩ + (5 : Int) ∧
    (∃ g', game_logic gOver 5 = some g' ∧
      g'.board.players = gOver.board.players ∧
      g'.dice_value = 5 ∧
      (5 ≠ 6 → g'.player_turn = (gOver.player_turn + 1) % gOver.board.players.length) ∧
      (5 = 6 → g'.player_turn = gOver.player_turn) ∧
      g'.ended = gOver.ended) :=
  ⟨by decide, rollTurn_overshoot gOver 5 { name := "A", position := ⟨8, 9⟩ } rfl
    (by decide) rfl (by decide) (by decide) (by decide)⟩

/-! ### Unbounded start-cell search in `add_snl` -/

/-- Once the cell selected by the start draw of the constant-zero stream is
occupied, the `'outer` loop of `add_snl` retries the start search forever:
the occupied-start `continue` performs no attempt counting, so no stream
prefix, however long, makes the call finish. -/
theorem addSnl_stuck (rsLo rsHi : Nat) (reLo reHi : Nat → Nat) (mk : Nat → Tile)
    (maxA : Nat) :
    ∀ (m k : Nat) (tile : Grid) (attempts : Nat),
      tile (genRange rsLo rsHi 0) ≠ Tile.none →
      addSnl rsLo rsHi reLo reHi mk maxA (List.replicate m 0) (k + 1) tile attempts
        Option.none = Option.none := by
  intro m
  induction m with
  | zero => intro k tile attempts _; rfl
  | succ m ih =>
    intro k tile attempts hocc
    rw [show addSnl rsLo rsHi reLo reHi mk maxA (List.replicate (m + 1) 0) (k + 1)
        tile attempts Option.none =
      (if tile (genRange rsLo rsHi 0) ≠ Tile.none then
        addSnl rsLo rsHi reLo reHi mk maxA (List.replicate m 0) (k + 1) tile attempts
          Option.none
      else
        addSnl rsLo rsHi reLo reHi mk maxA (List.replicate m 0) (k + 1) tile attempts
          (some (genRange rsLo rsHi 0))) from rfl]
    rw [if_pos hocc]
    exact ih k tile attempts hocc

/-- On the constant-zero stream the snake pass places its first snake at start
cell 10 (exit cell 1) and then loops forever: every later start draw selects
the now-occupied cell 10. -/
theorem snakes_pass_zero_stream (n : Nat) :
    addSnl 10 99 (fun _ => 1) (fun s => (s / 10) * 10)
      (fun e => Tile.Snake (posOfCell e)) 50 (List.replicate n 0) 8
      (fun _ => Tile.none) 0 Option.none = Option.none := by
  match n with
  | 0 => rfl
  | 1 => rfl
  | m + 2 =>
    rw [show addSnl 10 99 (fun _ => 1) (fun s => (s / 10) * 10)
        (fun e => Tile.Snake (posOfCell e)) 50 (List.replicate (m + 2) 0) 8
        (fun _ => Tile.none) 0 Option.none =
      addSnl 10 99 (fun _ => 1) (fun s => (s / 10) * 10)
        (fun e => Tile.Snake (posOfCell e)) 50 (List.replicate m 0) 7
        (setCell (setCell (fun _ => Tile.none) 10 (Tile.Snake (posOfCell 1))) 1
          Tile.Target) 0 Option.none from rfl]
    exact addSnl_stuck 10 99 (fun _ => 1) (fun s => (s / 10) * 10)
      (fun e => Tile.Snake (posOfCell e)) 50 m 6
      (setCell (setCell (fun _ => Tile.none) 10 (Tile.Snake (posOfCell 1))) 1
        Tile.Target) 0 (by decide)

/-- C2: board generation is not bounded and cannot fail with an error: on the
constant-zero random stream, `Board::new` never finishes — no finite prefix of
the stream, however long, completes the call (the start-cell `continue` in
`add_snl` performs no attempt counting, so the `'outer` loop retries forever
once cell 10 holds the first snake), and the code has no `GenerationError`
(or any other error value) to return to the caller. -/
theorem generation_unbounded_on_zero_stream (n : Nat) :
    boardNew (List.replicate n 0) = Option.none := by
  unfold boardNew
  rw [snakes_pass_zero_stream n]

/-- C9 counterexample: `GamePage::new` accepts a one-player configuration
(player count outside the supported [2,4]) without any error: on a stream
where generation completes it constructs a full game state, and no
`ConfigError` type exists anywhere in the code. -/
theorem newGame_no_validation_cex :
    cfgSolo.players.length = 1 ∧
    (gamePageNew cfgSolo wStream).map
        (fun g => (g.board.players.length, g.ended, g.player_turn, g.dice_value)) =
      some (1, false, 0, 0) := by
  decide

/-- C9 (amended): `GamePage::new` performs no validation whatsoever — for any
configuration, malformed or with any player count, it builds the game state
directly from the config fields whenever board generation completes; rejecting
a configuration is impossible and no `ConfigError` exists in the code. -/
theorem newGame_no_validation (cfg : Config) (rng : List Nat) (g : GamePage)
    (h : gamePageNew cfg rng = some g) :
    g.board.players = cfg.players ∧ g.game_type = cfg.game_type ∧
    g.ended = false ∧ g.player_turn = 0 ∧ g.dice_value = 0 := by
  unfold gamePageNew at h
  cases hb : boardNew rng with
  | none =>
    rw [hb] at h
    exact Option.noConfusion h
  | some pr =>
    obtain ⟨grid, rest⟩ := pr
    rw [hb] at h
    rw [Option.some_inj] at h
    rw [← h]
    exact ⟨rfl, rfl, rfl, rfl, rfl⟩

theorem newGame_no_validation_witness :
    cfgSolo.players.length = 1 ∧ wGame.board.players = cfgSolo.players ∧
    wGame.ended = false ∧ wGame.player_turn = 0 ∧ wGame.dice_value = 0 := by
  have h := newGame_no_validation cfgSolo wStream wGame rfl
  exact ⟨rfl, h.1, h.2.2.1, h.2.2.2.1, h.2.2.2.2⟩
